import Mathlib

/-
Verification of the streaming response decoder and leaderboard ranking
engine of the Operation Cortex application (src/streamlit_app.py).

The embedding models:
  * clean_text            (text normalizer, lines 56-94)
  * process_sse_response  (SSE frame parsing, lines 305-351; the
                           event-list payload interpreter, lines 353-381;
                           the pre-parsed dict shapes, choice list and
                           direct message, lines 383-419; and the final
                           normalization at line 425)
  * total_score and the session leaderboard logic of save_to_leaderboard
                          (lines 502-573)

Python strings are modelled as `String` / `List Char`; Python dicts,
lists and JSON values as the inductive `PyVal`; a raised-and-caught
exception inside the payload walk as an abort flag threaded through the
fold.  The score formula of lines 508-511 runs in IEEE-754 double
arithmetic; it is embedded as exact rational arithmetic with `Int.floor`
for the `int(..)` truncation.  That idealization diverges from the
program at some valid inputs (double rounding can land the float just
below an integer the exact value reaches), so no theorem below
quantifies over the score formula; the only concrete scores used
(1 of 2 correct in 10 seconds, and the stored literal 982) were checked
by hand to be float-exact in CPython.

All recursive text functions are written with an explicit fuel argument
(always called with fuel = length of the list, which the functions never
exhaust because each step consumes at least one character); this keeps
every definition kernel-reducible so concrete inputs can be settled by
`decide` / `rfl`.
-/

/-! Text normalizer: clean_text (lines 56-94) -/

/-- The set of characters matched by CPython ASCII `\s` and stripped by
`str.strip()` on ASCII text. -/
def isPySpace (c : Char) : Bool :=
  c = ' ' || c = '\t' || c = '\n' || c = '\r' || c = '\x0b' || c = '\x0c'

/-- Python `str.strip()`: remove leading and trailing whitespace. -/
def pyStripChars (l : List Char) : List Char :=
  ((l.dropWhile isPySpace).reverse.dropWhile isPySpace).reverse

/-- Python `str.replace(old, new)` for a non-empty `old`: replace all
non-overlapping occurrences, scanning left to right, never rescanning the
replacement text.  Fuel-based; `fuel = l.length` always suffices because
each step consumes at least one character. -/
def replaceAllGo (pat repl : List Char) : Nat → List Char → List Char
  | _, [] => []
  | 0, l => l
  | fuel + 1, c :: cs =>
    if pat ≠ [] ∧ pat.isPrefixOf (c :: cs) then
      repl ++ replaceAllGo pat repl fuel ((c :: cs).drop pat.length)
    else
      c :: replaceAllGo pat repl fuel cs

def replaceAll (pat repl l : List Char) : List Char :=
  replaceAllGo pat repl l.length l

/-- Leftmost match of the regex `\s+\d+\s+\.` starting exactly at the head
of `l`; returns the remainder after the match.  Because the character
classes of adjacent regex atoms are disjoint, the greedy maximal-munch
match is the only possible one, so plain run-scanning is faithful to
CPython `re`. -/
def matchSub1 (l : List Char) : Option (List Char) :=
  match l with
  | c :: _ =>
    if isPySpace c then
      match l.dropWhile isPySpace with
      | d :: _ =>
        if d.isDigit then
          match (l.dropWhile isPySpace).dropWhile Char.isDigit with
          | e :: _ =>
            if isPySpace e then
              match ((l.dropWhile isPySpace).dropWhile Char.isDigit).dropWhile isPySpace with
              | '.' :: r => some r
              | _ => none
            else none
          | [] => none
        else none
      | [] => none
    else none
  | [] => none

/-- `re.sub(r'\s+\d+\s+\.', ' .', text)` (line 87). -/
def sub1Go : Nat → List Char → List Char
  | _, [] => []
  | 0, l => l
  | fuel + 1, c :: cs =>
    match matchSub1 (c :: cs) with
    | some r => ' ' :: '.' :: sub1Go fuel r
    | none => c :: sub1Go fuel cs

def sub1 (l : List Char) : List Char := sub1Go l.length l

/-- Leftmost match of the regex `"\s*\d+\s*\.` starting at the head of
`l`; returns the remainder after the match. -/
def matchSub2 (l : List Char) : Option (List Char) :=
  match l with
  | '"' :: r0 =>
    match r0.dropWhile isPySpace with
    | d :: _ =>
      if d.isDigit then
        match ((r0.dropWhile isPySpace).dropWhile Char.isDigit).dropWhile isPySpace with
        | '.' :: r => some r
        | _ => none
      else none
    | [] => none
  | _ => none

/-- `re.sub(r'"\s*\d+\s*\.', '".', text)` (line 88). -/
def sub2Go : Nat → List Char → List Char
  | _, [] => []
  | 0, l => l
  | fuel + 1, c :: cs =>
    match matchSub2 (c :: cs) with
    | some r => '"' :: '.' :: sub2Go fuel r
    | none => c :: sub2Go fuel cs

def sub2 (l : List Char) : List Char := sub2Go l.length l

/-- `re.sub(r'\s+', ' ', text)` (line 91): collapse each maximal
whitespace run to a single space. -/
def collapseWSGo : Nat → List Char → List Char
  | _, [] => []
  | 0, l => l
  | fuel + 1, c :: cs =>
    if isPySpace c then ' ' :: collapseWSGo fuel (cs.dropWhile isPySpace)
    else c :: collapseWSGo fuel cs

def collapseWS (l : List Char) : List Char := collapseWSGo l.length l

/-- The apostrophe character (used inside several lexical repair rules). -/
def apos : Char := Char.ofNat 39

/-- The `str.replace` calls of clean_text, in source order, lines 62-84
(including the four repairs that the source repeats twice). -/
def replacePairs : List (List Char × List Char) :=
  [ (['ã', '\x80', '\x90'], []),
    (['â', '\x80'], []),
    (['ã', '\x80', '\x91'], []),
    (['\x80'], []),
    (['\x90'], []),
    (['\x91'], []),
    ("Thecodeword".data, "The codeword".data),
    ("Thekeyphrase".data, "The keyphrase".data),
    ("Theagent".data, "The agent".data),
    ("Themission".data, "The mission".data),
    ("Thelocation".data, "The location".data),
    ("Idon".data ++ [apos, 't'], "I don".data ++ [apos, 't']),
    ("Ican".data ++ [apos, 't'], "I can".data ++ [apos, 't']),
    ("Iwill".data, "I will".data),
    ("Iam".data, "I am".data),
    ("Idon".data ++ [apos, 't'], "I don".data ++ [apos, 't']),
    ("Ican".data ++ [apos, 't'], "I can".data ++ [apos, 't']),
    ("Iwill".data, "I will".data),
    ("Iam".data, "I am".data),
    ("thatquestion".data, "that question".data),
    ("knowthe".data, "know the".data) ]

/-- clean_text (lines 56-94): artifact stripping, word-join repairs, the
two numeric-artifact regex substitutions, whitespace collapse, strip.
Empty input is returned unchanged (line 58-59). -/
def cleanChars (l : List Char) : List Char :=
  if l = [] then l
  else
    pyStripChars (collapseWS (sub2 (sub1
      (replacePairs.foldl (fun s p => replaceAll p.1 p.2 s) l))))

def clean_text (s : String) : String := String.mk (cleanChars s.data)

example : clean_text "" = "" := by decide
example : clean_text "a 1 1 ." = "a 1 ." := by decide
example : clean_text "a 1 ." = "a ." := by decide
example : clean_text "Thecodeword is Shadow" = "The codeword is Shadow" := by decide
example : clean_text "  a \t b " = "a b" := by decide

/-! Python value model and SSE frame parsing (lines 305-351) -/

/-- Model of the Python values the decoder manipulates: JSON values
produced by `json.loads` plus the strings the parser itself stores.
`int` stands in for JSON numbers; the interpreter never inspects a
number, so integer and float numbers behave identically in every code
path modelled here. -/
inductive PyVal where
  | str (s : String)
  | int (n : Int)
  | bool (b : Bool)
  | null
  | list (elems : List PyVal)
  | dict (fields : List (String × PyVal))

/-- One parsed SSE event record: the accumulator dict of the parser loop,
which holds at most an `event` name (set by `event:` lines) and a `data`
payload (set by `data:` lines; a `PyVal.str` when `json.loads` failed and
the cleaned text was stored instead). -/
structure SSEEvent where
  event : Option String
  data : Option PyVal

/-- Python truthiness of the accumulator dict: non-empty iff some key was
set. -/
def SSEEvent.isEmpty (e : SSEEvent) : Bool :=
  e.event.isNone && e.data.isNone

def emptySSE : SSEEvent := { event := none, data := none }

def strDrop (s : String) (n : Nat) : String := String.mk (s.data.drop n)

def strStartsWith (s p : String) : Bool := p.data.isPrefixOf s.data

def pyStrip (s : String) : String := String.mk (pyStripChars s.data)

/-- One iteration of the SSE line loop (lines 321-343).  `jparse` stands
for `json.loads` restricted to success (`some`) or failure (`none`); the
parser treats it as an external collaborator.  State is (events so far,
current accumulator). -/
def processLine (jparse : String → Option PyVal)
    (st : List SSEEvent × SSEEvent) (rawLine : String) :
    List SSEEvent × SSEEvent :=
  let line := pyStrip rawLine
  if strStartsWith line "event:" then
    let flushed := if st.2.isEmpty then st.1 else st.1 ++ [st.2]
    (flushed, { event := some (pyStrip (strDrop line 6)), data := none })
  else if strStartsWith line "data:" then
    let ds := pyStrip (strDrop line 5)
    if ds ≠ "" ∧ ds ≠ "[DONE]" then
      match jparse ds with
      | some j => (st.1, { st.2 with data := some j })
      | none => (st.1, { st.2 with data := some (.str (clean_text ds)) })
    else st
  else if line = "" then
    if st.2.isEmpty then st else (st.1 ++ [st.2], emptySSE)
  else st

def sseFold (jparse : String → Option PyVal) (lines : List String) :
    List SSEEvent × SSEEvent :=
  lines.foldl (processLine jparse) ([], emptySSE)

/-- The full SSE frame parse (lines 320-347), including the final flush of
a non-empty accumulator when the stream ends (lines 345-347). -/
def sseParse (jparse : String → Option PyVal) (lines : List String) :
    List SSEEvent :=
  let st := sseFold jparse lines
  if st.2.isEmpty then st.1 else st.1 ++ [st.2]

/-! Payload interpreter for the event-sequence shape (lines 353-381),
with the final normalization of line 425.  Python attribute/type errors
raised while walking an ill-shaped value are caught by the
`except` at line 421; they are modelled by an abort flag (`true` = the
walk raised), after which the partial accumulator is still returned. -/

structure Citation where
  source_id : PyVal
  doc_id : PyVal

structure RespAcc where
  text : String
  sql : PyVal
  citations : List Citation

/-- First-match association lookup, as on a Python dict. -/
def pyLookup : List (String × PyVal) → String → Option PyVal
  | [], _ => none
  | (k, v) :: rest, key => if k = key then some v else pyLookup rest key

/-- Python `v.get(k, d)`: defined on dicts, raises AttributeError
(modelled as `none`) on anything else. -/
def pyGetD : PyVal → String → PyVal → Option PyVal
  | .dict fs, k, d => some ((pyLookup fs k).getD d)
  | _, _, _ => none

/-- Python `==` between an arbitrary value and a string literal. -/
def isStrEq (v : PyVal) (s : String) : Bool :=
  match v with
  | .str t => t == s
  | _ => false

/-- Python `for x in v`: lists iterate their elements, strings iterate
their characters (as one-character strings), dicts iterate their keys;
numbers, booleans and None raise (modelled as `none`). -/
def iterElems : PyVal → Option (List PyVal)
  | .list es => some es
  | .str s => some (s.data.map fun c => PyVal.str (String.mk [c]))
  | .dict fs => some (fs.map fun p => PyVal.str p.1)
  | _ => none

/-- Substring test, for Python `'content' in tool_results` when
`tool_results` is a string. -/
def containsSub (pat l : List Char) : Bool :=
  match l with
  | [] => pat.isPrefixOf ([] : List Char)
  | _ :: rest => pat.isPrefixOf l || containsSub pat rest

/-- Fold a step function that can abort (first component `true`) over a
list, stopping at the first abort and keeping the state accumulated so
far — the Python exception propagating out of a `for` loop. -/
def foldA (f : RespAcc → α → Bool × RespAcc) : RespAcc → List α → Bool × RespAcc
  | acc, [] => (false, acc)
  | acc, x :: xs =>
    match f acc x with
    | (true, a) => (true, a)
    | (false, a) => foldA f a xs

/-- Body of `for search_result in search_results` (lines 372-376). -/
def citeStep (acc : RespAcc) (sr : PyVal) : Bool × RespAcc :=
  match pyGetD sr "source_id" (.str "") with
  | none => (true, acc)
  | some sid =>
    match pyGetD sr "doc_id" (.str "") with
    | none => (true, acc)
    | some did =>
      (false, { acc with citations := acc.citations ++ [⟨sid, did⟩] })

/-- Body of `for result in tool_results['content']` (lines 365-377):
a `json`-typed result contributes its cleaned text, its search-result
citations in order, and then unconditionally overwrites `sql` with
`json_data.get('sql', '')` (line 377). -/
def processResult (acc : RespAcc) (result : PyVal) : Bool × RespAcc :=
  match pyGetD result "type" .null with
  | none => (true, acc)
  | some tp =>
    if isStrEq tp "json" then
      match pyGetD result "json" (.dict []) with
      | none => (true, acc)
      | some json_data =>
        match pyGetD json_data "text" (.str "") with
        | none => (true, acc)
        | some raw =>
          match raw with
          | .str s =>
            let acc1 := { acc with text := acc.text ++ clean_text s }
            match pyGetD json_data "searchResults" (.list []) with
            | none => (true, acc1)
            | some srs =>
              match iterElems srs with
              | none => (true, acc1)
              | some elems =>
                match foldA citeStep acc1 elems with
                | (true, a) => (true, a)
                | (false, a) =>
                  match pyGetD json_data "sql" (.str "") with
                  | none => (true, a)
                  | some sq => (false, { a with sql := sq })
          | _ => (true, acc)
    else (false, acc)

/-- Body of `for content_item in delta.get('content', [])`
(lines 360-381). -/
def processContentItem (acc : RespAcc) (item : PyVal) : Bool × RespAcc :=
  match pyGetD item "type" .null with
  | none => (true, acc)
  | some tp =>
    if isStrEq tp "tool_results" then
      match pyGetD item "tool_results" (.dict []) with
      | none => (true, acc)
      | some tr =>
        match tr with
        | .dict fs =>
          match pyLookup fs "content" with
          | some inner =>
            match iterElems inner with
            | none => (true, acc)
            | some results => foldA processResult acc results
          | none => (false, acc)
        | .str s =>
          if containsSub "content".data s.data then (true, acc)
          else (false, acc)
        | .list es =>
          if es.any (fun v => isStrEq v "content") then (true, acc)
          else (false, acc)
        | _ => (true, acc)
    else if isStrEq tp "text" then
      match pyGetD item "text" (.str "") with
      | none => (true, acc)
      | some raw =>
        match raw with
        | .str s => (false, { acc with text := acc.text ++ clean_text s })
        | _ => (true, acc)
    else (false, acc)

/-- Body of `for event in response` (lines 355-381): only events whose
name equals `message.delta` contribute. -/
def processEvent (acc : RespAcc) (e : SSEEvent) : Bool × RespAcc :=
  if e.event = some "message.delta" then
    let data : PyVal := e.data.getD (.dict [])
    match pyGetD data "delta" (.dict []) with
    | none => (true, acc)
    | some delta =>
      match pyGetD delta "content" (.list []) with
      | none => (true, acc)
      | some content =>
        match iterElems content with
        | none => (true, acc)
        | some items => foldA processContentItem acc items
  else (false, acc)

def initAcc : RespAcc := { text := "", sql := .str "", citations := [] }

/-- `true` iff walking the event list raises (and the exception is caught
at line 421). -/
def interpAborts (events : List SSEEvent) : Bool :=
  (foldA processEvent initAcc events).1

/-- The event-sequence branch of process_sse_response (lines 353-381)
followed by the final `text = clean_text(text)` of line 425 (which runs
whether or not the walk raised). -/
def process_sse_events (events : List SSEEvent) : RespAcc :=
  let r := foldA processEvent initAcc events
  { r.2 with text := clean_text r.2.text }

/-! Payload interpreter for the pre-parsed dict shapes (lines 383-419):
the choice-list shape (`'choices' in response`, lines 385-410) and the
direct-message shape (`'message' in response`, lines 411-419), again with
the final normalization of line 425. -/

/-- Body of `for result in tool_results['content']` in the choice-list
branch (lines 398-410): as in the event branch, but here `sql` is
overwritten (line 404) before the citations loop. -/
def processResultChoice (acc : RespAcc) (result : PyVal) : Bool × RespAcc :=
  match pyGetD result "type" .null with
  | none => (true, acc)
  | some tp =>
    if isStrEq tp "json" then
      match pyGetD result "json" (.dict []) with
      | none => (true, acc)
      | some json_data =>
        match pyGetD json_data "text" (.str "") with
        | none => (true, acc)
        | some raw =>
          match raw with
          | .str s =>
            let acc1 := { acc with text := acc.text ++ clean_text s }
            match pyGetD json_data "sql" (.str "") with
            | none => (true, acc1)
            | some sq =>
              let acc2 := { acc1 with sql := sq }
              match pyGetD json_data "searchResults" (.list []) with
              | none => (true, acc2)
              | some srs =>
                match iterElems srs with
                | none => (true, acc2)
                | some elems => foldA citeStep acc2 elems
          | _ => (true, acc)
    else (false, acc)

/-- Body of `for item in content` in the choice-list branch
(lines 390-410): plain text items are checked first, then tool
results. -/
def processItemChoice (acc : RespAcc) (item : PyVal) : Bool × RespAcc :=
  match pyGetD item "type" .null with
  | none => (true, acc)
  | some tp =>
    if isStrEq tp "text" then
      match pyGetD item "text" (.str "") with
      | none => (true, acc)
      | some raw =>
        match raw with
        | .str s => (false, { acc with text := acc.text ++ clean_text s })
        | _ => (true, acc)
    else if isStrEq tp "tool_results" then
      match pyGetD item "tool_results" (.dict []) with
      | none => (true, acc)
      | some tr =>
        match tr with
        | .dict fs =>
          match pyLookup fs "content" with
          | some inner =>
            match iterElems inner with
            | none => (true, acc)
            | some results => foldA processResultChoice acc results
          | none => (false, acc)
        | .str s =>
          if containsSub "content".data s.data then (true, acc)
          else (false, acc)
        | .list es =>
          if es.any (fun v => isStrEq v "content") then (true, acc)
          else (false, acc)
        | _ => (true, acc)
    else (false, acc)

/-- Body of `for choice in response['choices']` (lines 386-410). -/
def processChoice (acc : RespAcc) (choice : PyVal) : Bool × RespAcc :=
  match pyGetD choice "message" (.dict []) with
  | none => (true, acc)
  | some message =>
    match pyGetD message "content" (.list []) with
    | none => (true, acc)
    | some content =>
      match iterElems content with
      | none => (true, acc)
      | some items => foldA processItemChoice acc items

/-- Body of `for item in content` in the direct-message branch
(lines 415-419): only plain text items contribute. -/
def processItemMsg (acc : RespAcc) (item : PyVal) : Bool × RespAcc :=
  match pyGetD item "type" .null with
  | none => (true, acc)
  | some tp =>
    if isStrEq tp "text" then
      match pyGetD item "text" (.str "") with
      | none => (true, acc)
      | some raw =>
        match raw with
        | .str s => (false, { acc with text := acc.text ++ clean_text s })
        | _ => (true, acc)
    else (false, acc)

/-- The dict branch of process_sse_response (lines 383-419): dispatch on
the `choices` key, then on the `message` key; anything else contributes
nothing. -/
def processDictCore (fields : List (String × PyVal)) : Bool × RespAcc :=
  match pyLookup fields "choices" with
  | some choicesVal =>
    match iterElems choicesVal with
    | none => (true, initAcc)
    | some choices => foldA processChoice initAcc choices
  | none =>
    match pyLookup fields "message" with
    | some msgVal =>
      match pyGetD msgVal "content" (.list []) with
      | none => (true, initAcc)
      | some content =>
        match iterElems content with
        | none => (true, initAcc)
        | some items => foldA processItemMsg initAcc items
    | none => (false, initAcc)

/-- `true` iff walking the dict-shaped response raises (caught at
line 421). -/
def dictInterpAborts (fields : List (String × PyVal)) : Bool :=
  (processDictCore fields).1

/-- The dict branch of process_sse_response followed by the final
`text = clean_text(text)` of line 425. -/
def process_sse_dict (fields : List (String × PyVal)) : RespAcc :=
  { (processDictCore fields).2 with
    text := clean_text (processDictCore fields).2.text }

/-! Flattened views of the event walk, used to state what the
interpreter accumulates: the raw text fragments, the sequence of values
written to `sql`, and the citations, each in encounter order.  On inputs
on which the walk raises these are not meaningful; the theorems relating
them to the interpreter therefore assume the walk does not raise. -/

def listFlat : List (List α) → List α
  | [] => []
  | a :: rest => a ++ listFlat rest

def sjoin : List String → String
  | [] => ""
  | s :: rest => s ++ sjoin rest

/-- The last element of `l`, or `d` when `l` is empty: the value left in
a variable by a sequence of plain assignments. -/
def lastD (l : List α) (d : α) : α := l.foldl (fun _ x => x) d

/-- The `json_data` of a `json`-typed tool result, when present. -/
def resultJson? (result : PyVal) : Option PyVal :=
  match result with
  | .dict fs =>
    if isStrEq ((pyLookup fs "type").getD .null) "json" then
      some ((pyLookup fs "json").getD (.dict []))
    else none
  | _ => none

def resultFrags (result : PyVal) : List String :=
  match resultJson? result with
  | some (.dict js) =>
    match (pyLookup js "text").getD (.str "") with
    | .str s => [s]
    | _ => []
  | some _ => []
  | none => []

def resultSqls (result : PyVal) : List PyVal :=
  match resultJson? result with
  | some (.dict js) => [(pyLookup js "sql").getD (.str "")]
  | some _ => []
  | none => []

def citeOf (x : PyVal) : Citation :=
  ⟨(pyGetD x "source_id" (.str "")).getD (.str ""),
   (pyGetD x "doc_id" (.str "")).getD (.str "")⟩

def resultCites (result : PyVal) : List Citation :=
  match resultJson? result with
  | some (.dict js) =>
    ((iterElems ((pyLookup js "searchResults").getD (.list []))).getD []).map citeOf
  | some _ => []
  | none => []

/-- The tool results iterated for a `tool_results`-typed content item. -/
def itemResults (item : PyVal) : List PyVal :=
  match item with
  | .dict fs =>
    if isStrEq ((pyLookup fs "type").getD .null) "tool_results" then
      match (pyLookup fs "tool_results").getD (.dict []) with
      | .dict trs =>
        match pyLookup trs "content" with
        | some inner => (iterElems inner).getD []
        | none => []
      | _ => []
    else []
  | _ => []

def itemFrags (item : PyVal) : List String :=
  match item with
  | .dict fs =>
    if isStrEq ((pyLookup fs "type").getD .null) "tool_results" then
      listFlat ((itemResults item).map resultFrags)
    else if isStrEq ((pyLookup fs "type").getD .null) "text" then
      match (pyLookup fs "text").getD (.str "") with
      | .str s => [s]
      | _ => []
    else []
  | _ => []

def itemSqls (item : PyVal) : List PyVal :=
  listFlat ((itemResults item).map resultSqls)

def itemCites (item : PyVal) : List Citation :=
  listFlat ((itemResults item).map resultCites)

/-- The content items iterated for a `message.delta` event. -/
def eventItems (e : SSEEvent) : List PyVal :=
  if e.event = some "message.delta" then
    match e.data.getD (.dict []) with
    | .dict fs =>
      match (pyLookup fs "delta").getD (.dict []) with
      | .dict ds => (iterElems ((pyLookup ds "content").getD (.list []))).getD []
      | _ => []
    | _ => []
  else []

def eventFrags (e : SSEEvent) : List String :=
  listFlat ((eventItems e).map itemFrags)

def eventSqls (e : SSEEvent) : List PyVal :=
  listFlat ((eventItems e).map itemSqls)

def eventCites (e : SSEEvent) : List Citation :=
  listFlat ((eventItems e).map itemCites)

def eventsFrags (events : List SSEEvent) : List String :=
  listFlat (events.map eventFrags)

def eventsSqls (events : List SSEEvent) : List PyVal :=
  listFlat (events.map eventSqls)

def eventsCites (events : List SSEEvent) : List Citation :=
  listFlat (events.map eventCites)

/-- Text fragment of a content item in the direct-message branch, which
contributes plain text only. -/
def msgItemFrags (item : PyVal) : List String :=
  match item with
  | .dict fs =>
    if isStrEq ((pyLookup fs "type").getD .null) "text" then
      match (pyLookup fs "text").getD (.str "") with
      | .str s => [s]
      | _ => []
    else []
  | _ => []

/-- The content items iterated for one choice of the choice-list
shape. -/
def choiceItems (choice : PyVal) : List PyVal :=
  match choice with
  | .dict cf =>
    match (pyLookup cf "message").getD (.dict []) with
    | .dict mf => (iterElems ((pyLookup mf "content").getD (.list []))).getD []
    | _ => []
  | _ => []

def choiceFrags (choice : PyVal) : List String :=
  listFlat ((choiceItems choice).map itemFrags)

def choiceSqls (choice : PyVal) : List PyVal :=
  listFlat ((choiceItems choice).map itemSqls)

def choiceCites (choice : PyVal) : List Citation :=
  listFlat ((choiceItems choice).map itemCites)

/-- The sequence of values written to `sql` while walking a dict-shaped
response: only the choice-list branch can write `sql` (line 404); the
direct-message branch never does. -/
def dictSqls (fields : List (String × PyVal)) : List PyVal :=
  match pyLookup fields "choices" with
  | some choicesVal => listFlat (((iterElems choicesVal).getD []).map choiceSqls)
  | none => []

/-! Score calculator and session leaderboard (lines 502-573) -/

/-- A session leaderboard entry (the dict built at lines 513-521).  The
source stores `accuracy` as the formatted string of a percentage and a
wall-clock `timestamp`; the percentage value is kept here as an exact
rational and the timestamp, which no modelled code path reads, is
omitted. -/
structure Entry where
  agent_name : String
  completion_time : Nat
  correct_answers : Nat
  total_questions : Nat
  accuracy : ℚ
  score : Int
deriving DecidableEq

/-- Lines 508-511: `accuracy = correct_answers / total_questions`,
`speed_score = max(0, 1000 - completion_time) / 1000`,
`total_score = int(accuracy * 700 + speed_score * 300)`.
The argument of `int(..)` is non-negative, so Python truncation toward
zero is floor.  The Python expression is evaluated in IEEE-754 doubles;
this embedding evaluates it exactly over the rationals, which differs
from the program at inputs where double rounding crosses an integer
boundary (for example correct=354, total=700, t=1000 gives 353 in
Python but exact floor 354).  It is therefore used below only at
concrete inputs verified to be float-exact, never under a universal
quantifier over run outcomes. -/
def total_score (correct_answers total_questions completion_time : Nat) : Int :=
  let accuracy : ℚ := (correct_answers : ℚ) / (total_questions : ℚ)
  let speed_score : ℚ := ((max 0 (1000 - (completion_time : Int)) : Int) : ℚ) / 1000
  Int.floor (accuracy * 700 + speed_score * 300)

def mkEntry (agent_name : String) (completion_time correct_answers total_questions : Nat) :
    Entry :=
  { agent_name := agent_name
    completion_time := completion_time
    correct_answers := correct_answers
    total_questions := total_questions
    accuracy := (correct_answers : ℚ) / (total_questions : ℚ)
    score := total_score correct_answers total_questions completion_time }

/-- Outcome of the attempted durable (database) write: no database
configured, insert succeeded, insert returned failure, or the insert
raised.  Only the displayed messages depend on it. -/
inductive DbStatus where
  | noDb | savedOk | saveFailed | saveError

def DbStatus.isSaved : DbStatus → Bool
  | .savedOk => true
  | _ => false

/-- The user-visible notifications emitted by save_to_leaderboard
(st.success / st.warning / st.info calls at lines 540-563). -/
inductive Msg where
  | dbSaved
  | dbSaveFailed
  | dbError
  | newBest (previous : Int)
  | keepBest (score previous : Int)
deriving DecidableEq

/-- The sort key comparison of line 570: ascending in
`(-score, completion_time)`. -/
def boardLE (a b : Entry) : Bool :=
  decide (b.score < a.score ∨ (a.score = b.score ∧ a.completion_time ≤ b.completion_time))

/-- Lines 570-573: full resort by `(score desc, time asc)` and cap at 10. -/
def sortTrunc (l : List Entry) : List Entry :=
  (l.mergeSort boardLE).take 10

/-- Python `str.lower()` on ASCII text. -/
def pyCharLower (c : Char) : Char :=
  if 'A' ≤ c ∧ c ≤ 'Z' then Char.ofNat (c.toNat + 32) else c

def pyLower (s : String) : String := String.mk (s.data.map pyCharLower)

/-- The identity test of line 550: case-folded agent name equality. -/
def sameAgent (agent_name : String) (e : Entry) : Bool :=
  pyLower e.agent_name == pyLower agent_name

/-- Replace the first element satisfying `p` (the single index update of
line 558). -/
def replaceFirst (p : α → Bool) (x : α) : List α → List α
  | [] => []
  | a :: as => if p a then x :: as else a :: replaceFirst p x as

/-- save_to_leaderboard (lines 502-573), session-state part.  The durable
write attempt (lines 523-545) only determines `db` and its messages; the
local board update below runs unconditionally.  Returns the new session
leaderboard and the notifications, in emission order. -/
def save_to_leaderboard (db : DbStatus) (board : List Entry) (agent_name : String)
    (completion_time correct_answers total_questions : Nat) :
    List Entry × List Msg :=
  let new_entry := mkEntry agent_name completion_time correct_answers total_questions
  let dbMsgs : List Msg :=
    match db with
    | .noDb => []
    | .savedOk => [.dbSaved]
    | .saveFailed => [.dbSaveFailed]
    | .saveError => [.dbError]
  match board.find? (sameAgent agent_name) with
  | some existing_entry =>
    if existing_entry.score < new_entry.score then
      (sortTrunc (replaceFirst (sameAgent agent_name) new_entry board),
       dbMsgs ++ if db.isSaved then [] else [.newBest existing_entry.score])
    else
      (board, dbMsgs ++ if db.isSaved then [] else [.keepBest new_entry.score existing_entry.score])
  | none => (sortTrunc (board ++ [new_entry]), dbMsgs)

/-! Definition taken from the specification text (for comparison with
the code): the documented last-non-empty rule for the query field. -/

/-- Modelled from the spec: `the query field takes the last non-empty
value observed` over the sql values carried by the tool-result items. -/
def lastNonEmptySql (writes : List PyVal) : PyVal :=
  lastD (writes.filter fun v => !isStrEq v "") (.str "")

/-! Concrete example inputs -/

/-- A content item of type `tool_results` carrying one `json`-typed
result with the given `json_data`. -/
def jsonToolItem (jd : PyVal) : PyVal :=
  .dict [("type", .str "tool_results"),
         ("tool_results", .dict [("content", .list [.dict [("type", .str "json"), ("json", jd)]])])]

/-- A content item of type `text`. -/
def textItem (s : String) : PyVal :=
  .dict [("type", .str "text"), ("text", .str s)]

/-- A `message.delta` event whose delta carries the given content
items. -/
def deltaEvent (items : List PyVal) : SSEEvent :=
  { event := some "message.delta",
    data := some (.dict [("delta", .dict [("content", .list items)])]) }

/-- The single-event example of the specification (section 8). -/
def ex9 : List SSEEvent :=
  [deltaEvent [jsonToolItem (.dict
    [("text", .str "Thecodeword is Shadow"),
     ("sql", .str "SELECT 1"),
     ("searchResults", .list [.dict [("source_id", .str "s1"), ("doc_id", .str "M001")]])])]]

/-- Two delta events: the first tool result carries a non-empty `sql`,
the second carries none. -/
def ex3 : List SSEEvent :=
  [deltaEvent [jsonToolItem (.dict [("sql", .str "SELECT 1")])],
   deltaEvent [jsonToolItem (.dict [("text", .str "done")])]]

/-- One delta event carrying two plain text fragments whose whitespace
meets at the fragment boundary. -/
def ex4 : List SSEEvent := [deltaEvent [textItem "a ", textItem " b"]]

/-- A well-formed event list used to witness the interpreter theorems. -/
def exW : List SSEEvent :=
  [deltaEvent [jsonToolItem (.dict [("text", .str "x "), ("sql", .str "SELECT 2")]),
               textItem " y"]]

/-- A well-formed choice-list response: one choice whose message content
carries a tool result with a sql value, followed by a text item. -/
def exWD : List (String × PyVal) :=
  [("choices", .list [
    .dict [("message", .dict [("content", .list
      [jsonToolItem (.dict [("text", .str "w "), ("sql", .str "SELECT 3")]),
       textItem "z"])])]])]

/-- A truncated stream: an event name and a data line, no blank line. -/
def exTrunc : List String := ["event: message.delta", "data: hello"]

/-! C2 -/

/-- C2: the Text Normalizer is claimed idempotent for every text.  It is
not: on `"a 1 1 ."` one application yields `"a 1 ."` (the numeric-artifact
regex removes the second ` 1 ` run), and a second application removes the
remaining ` 1 ` as well, yielding `"a ."`.  The code does rely on
re-cleaning being harmless (it re-cleans its own cleaned output at lines
424-425 and 845), so this is a defect of the code rather than of the
specification.  Empty input is, as claimed, returned unchanged. -/
theorem clean_text_not_idempotent :
    clean_text "" = "" ∧
    clean_text "a 1 1 ." = "a 1 ." ∧
    clean_text (clean_text "a 1 1 .") = "a ." ∧
    clean_text (clean_text "a 1 1 .") ≠ clean_text "a 1 1 ." :=
  ⟨by decide, by decide, by decide, by decide⟩

/-! C9 -/

/-- C9: decoding one delta event whose tool result carries
`text="Thecodeword is Shadow"`, `sql="SELECT 1"` and a single search
result `(s1, M001)` yields exactly the decoded response
`text="The codeword is Shadow"`, `query="SELECT 1"`,
`citations=[(s1, M001)]`. -/
theorem decode_example_event :
    (process_sse_events ex9).text = "The codeword is Shadow" ∧
    (process_sse_events ex9).sql = PyVal.str "SELECT 1" ∧
    (process_sse_events ex9).citations = [⟨PyVal.str "s1", PyVal.str "M001"⟩] :=
  ⟨by decide, rfl, rfl⟩

/-! C7 -/

/-- C7: if the line stream ends while the event accumulator is non-empty
(no terminating blank line), the parser still emits that final partial
event as the last element of its output. -/
theorem flush_on_truncation (jparse : String → Option PyVal) (lines : List String)
    (h : (sseFold jparse lines).2.isEmpty = false) :
    sseParse jparse lines = (sseFold jparse lines).1 ++ [(sseFold jparse lines).2] ∧
    (sseParse jparse lines).getLast? = some (sseFold jparse lines).2 := by
  have e : sseParse jparse lines
      = (sseFold jparse lines).1 ++ [(sseFold jparse lines).2] := by
    unfold sseParse
    simp [h]
  refine ⟨e, ?_⟩
  rw [e]
  simp

/-- Witness for C7 at a concrete truncated stream. -/
theorem flush_on_truncation_witness :
    (sseFold (fun _ => none) exTrunc).2.isEmpty = false ∧
    sseParse (fun _ => none) exTrunc
      = [{ event := some "message.delta", data := some (.str "hello") }] ∧
    (sseParse (fun _ => none) exTrunc).getLast?
      = some { event := some "message.delta", data := some (.str "hello") } := by
  have h : (sseFold (fun _ => none) exTrunc).2.isEmpty = false := rfl
  have t := flush_on_truncation (fun _ => none) exTrunc h
  exact ⟨h, t.1.trans rfl, t.2.trans rfl⟩

/-! C8 -/

/-- A line that begins with the data marker does not begin with the
event-name marker. -/
theorem data_not_event {l : List Char} (h : ("data:".data).isPrefixOf l = true) :
    ("event:".data).isPrefixOf l = false := by
  cases l with
  | nil => simp [List.isPrefixOf] at h
  | cons c cs =>
    have hd : "data:".data = 'd' :: "ata:".data := rfl
    have he : "event:".data = 'e' :: "vent:".data := rfl
    rw [hd] at h
    rw [he]
    simp [List.isPrefixOf] at h ⊢
    intro hc
    exact absurd (h.1.trans hc.symm) (by decide)

/-- C8 (counterexample): on parse failure the parser does not store the
data payload itself; it stores the payload passed through the Text
Normalizer, which differs from the payload whenever cleaning changes it
(here the doubled space is collapsed). -/
theorem opaque_data_not_raw_payload :
    processLine (fun _ => none) ([], emptySSE) "data: a  b"
      = ([], { emptySSE with data := some (.str "a b") }) ∧
    PyVal.str "a b" ≠ PyVal.str "a  b" := by
  refine ⟨rfl, fun h => ?_⟩
  injection h with h
  exact absurd h (by decide)

/-- C8 (amended): for every data line whose payload fails to parse as
JSON (and is neither empty nor the stream terminator), the parser stores
the cleaned payload as opaque text in the current event record and
parsing continues with the next line; the parse failure never escapes
(the step is a total function). -/
theorem malformed_data_degrades_to_text (jparse : String → Option PyVal)
    (evs : List SSEEvent) (cur : SSEEvent) (raw : String) (rest : List String)
    (hd : strStartsWith (pyStrip raw) "data:" = true)
    (hne : pyStrip (strDrop (pyStrip raw) 5) ≠ "")
    (hnd : pyStrip (strDrop (pyStrip raw) 5) ≠ "[DONE]")
    (hp : jparse (pyStrip (strDrop (pyStrip raw) 5)) = none) :
    processLine jparse (evs, cur) raw
      = (evs, { cur with data := some (.str (clean_text (pyStrip (strDrop (pyStrip raw) 5)))) }) ∧
    List.foldl (processLine jparse) (evs, cur) (raw :: rest)
      = List.foldl (processLine jparse)
          (evs, { cur with data := some (.str (clean_text (pyStrip (strDrop (pyStrip raw) 5)))) }) rest := by
  have hev : strStartsWith (pyStrip raw) "event:" = false := data_not_event hd
  have h1 : processLine jparse (evs, cur) raw
      = (evs, { cur with data := some (.str (clean_text (pyStrip (strDrop (pyStrip raw) 5)))) }) := by
    unfold processLine
    simp only [hev, hd, Bool.false_eq_true, if_false, if_true]
    rw [if_pos ⟨hne, hnd⟩, hp]
  exact ⟨h1, by rw [List.foldl_cons, h1]⟩

/-- Witness for C8 at a concrete malformed data line. -/
theorem malformed_data_degrades_to_text_witness :
    strStartsWith (pyStrip "data: a  b") "data:" = true ∧
    pyStrip (strDrop (pyStrip "data: a  b") 5) ≠ "" ∧
    processLine (fun _ => none) ([], emptySSE) "data: a  b"
      = ([], { emptySSE with data := some (.str "a b") }) := by
  have t := malformed_data_degrades_to_text (fun _ => none) [] emptySSE "data: a  b" []
    (by decide) (by decide) (by decide) rfl
  exact ⟨by decide, by decide, t.1.trans rfl⟩

/-! C10 -/

/-- C10: the session-state (process-local fallback) leaderboard update
runs on every submission by the insert/replace-if-better rule, whatever
the outcome of the durable write: the resulting board never depends on
the database status, so a successful durable write does not skip the
local update. -/
theorem local_cache_update_unconditional (db : DbStatus) (board : List Entry)
    (agent_name : String) (completion_time correct_answers total_questions : Nat) :
    (save_to_leaderboard db board agent_name completion_time correct_answers total_questions).1
      = (save_to_leaderboard .noDb board agent_name completion_time correct_answers total_questions).1 := by
  unfold save_to_leaderboard
  cases h : board.find? (sameAgent agent_name) with
  | none => simp
  | some e => simp only; split <;> rfl

/-! C5 -/

/-- An entry as produced by a first submission of agent `x` with 2 of 2
correct in 60 seconds (score 982). -/
def e5 : Entry :=
  { agent_name := "x", completion_time := 60, correct_answers := 2,
    total_questions := 2, accuracy := 1, score := 982 }

/-- C5 (amended): when an entry for the same case-folded agent name
exists and the new computed score is not strictly greater, the submission
is rejected: the board is returned unchanged (for every database status),
and the previous best score is reported — but only when the durable write
did not succeed. -/
theorem reject_keeps_entry (db : DbStatus) (board : List Entry) (name : String)
    (t c q : Nat) (old : Entry)
    (hf : board.find? (sameAgent name) = some old)
    (hle : total_score c q t ≤ old.score) :
    (save_to_leaderboard db board name t c q).1 = board ∧
    (db.isSaved = false →
      Msg.keepBest (total_score c q t) old.score ∈ (save_to_leaderboard db board name t c q).2) := by
  have hle2 : (mkEntry name t c q).score ≤ old.score := hle
  unfold save_to_leaderboard
  simp only [hf]
  rw [if_neg (not_lt.mpr hle2)]
  constructor
  · rfl
  · intro h
    simp [h]
    exact Or.inr rfl

/-- C5 (counterexample): a rejected lower-scoring resubmission for the
same case-folded name (here `X` after `x`, score 647 against stored 982)
leaves the stored entry untouched, but when the durable write succeeded
the only notification is the database-save message — the previous best
score is not reported, contradicting the claim that it always is. -/
theorem reject_silent_when_db_saved :
    (save_to_leaderboard .savedOk [e5] "X" 10 1 2).1 = [e5] ∧
    (save_to_leaderboard .savedOk [e5] "X" 10 1 2).2 = [Msg.dbSaved] ∧
    (∀ s p, Msg.keepBest s p ∉ (save_to_leaderboard .savedOk [e5] "X" 10 1 2).2) := by
  have hs : total_score 1 2 10 = 647 := by norm_num [total_score]
  have hf : [e5].find? (sameAgent "X") = some e5 := rfl
  have hle : total_score 1 2 10 ≤ e5.score := by rw [hs]; decide
  have base := reject_keeps_entry .savedOk [e5] "X" 10 1 2 e5 hf hle
  have hle2 : (mkEntry "X" 10 1 2).score ≤ e5.score := hle
  have hm : (save_to_leaderboard .savedOk [e5] "X" 10 1 2).2 = [Msg.dbSaved] := by
    unfold save_to_leaderboard
    simp only [hf]
    rw [if_neg (not_lt.mpr hle2)]
    rfl
  refine ⟨base.1, hm, ?_⟩
  intro s p hmem
  rw [hm] at hmem
  simp at hmem

/-- Witness for C5 in degraded (no database) mode: rejection keeps the
board and reports the previous best. -/
theorem reject_keeps_entry_witness :
    [e5].find? (sameAgent "X") = some e5 ∧
    total_score 1 2 10 ≤ e5.score ∧
    (save_to_leaderboard .noDb [e5] "X" 10 1 2).1 = [e5] ∧
    Msg.keepBest (total_score 1 2 10) e5.score ∈ (save_to_leaderboard .noDb [e5] "X" 10 1 2).2 := by
  have hf : [e5].find? (sameAgent "X") = some e5 := rfl
  have hle : total_score 1 2 10 ≤ e5.score := by
    have : total_score 1 2 10 = 647 := by norm_num [total_score]
    rw [this]; decide
  have t := reject_keeps_entry .noDb [e5] "X" 10 1 2 e5 hf hle
  exact ⟨hf, hle, t.1, t.2 rfl⟩

/-! Accumulation lemmas for the payload interpreter (C3, C4) -/


theorem sjoin_append (a b : List String) : sjoin (a ++ b) = sjoin a ++ sjoin b := by
  induction a with
  | nil => simp [sjoin]
  | cons x xs ih => simp [sjoin, ih, String.append_assoc]

theorem lastD_append (xs ys : List α) (d : α) :
    lastD (xs ++ ys) d = lastD ys (lastD xs d) := by
  simp [lastD, List.foldl_append]

theorem listFlat_cons (a : List α) (l : List (List α)) :
    listFlat (a :: l) = a ++ listFlat l := rfl

/-- Accumulation behaviour of a non-aborting `foldA` run, given the
accumulation behaviour of a non-aborting step. -/
theorem foldA_spec {α : Type} (f : RespAcc → α → Bool × RespAcc)
    (F : α → List String) (S : α → List PyVal) (C : α → List Citation)
    (hstep : ∀ acc x a, f acc x = (false, a) →
      a.text = acc.text ++ sjoin ((F x).map clean_text) ∧
      a.sql = lastD (S x) acc.sql ∧
      a.citations = acc.citations ++ C x) :
    ∀ (l : List α) (acc a : RespAcc), foldA f acc l = (false, a) →
      a.text = acc.text ++ sjoin ((listFlat (l.map F)).map clean_text) ∧
      a.sql = lastD (listFlat (l.map S)) acc.sql ∧
      a.citations = acc.citations ++ listFlat (l.map C) := by
  intro l
  induction l with
  | nil =>
    intro acc a h
    simp only [foldA] at h
    injection h with h1 h2
    subst h2
    simp [sjoin, lastD, listFlat]
  | cons x xs ih =>
    intro acc a h
    simp only [foldA] at h
    cases hx : f acc x with
    | mk b acc1 =>
      rw [hx] at h
      cases b with
      | true => simp at h
      | false =>
        obtain ⟨h1, h2, h3⟩ := ih acc1 a h
        obtain ⟨g1, g2, g3⟩ := hstep acc x acc1 hx
        refine ⟨?_, ?_, ?_⟩
        · rw [h1, g1, List.map_cons, listFlat_cons, List.map_append, sjoin_append,
            String.append_assoc]
        · rw [h2, g2, List.map_cons, listFlat_cons, lastD_append]
        · rw [h3, g3, List.map_cons, listFlat_cons, List.append_assoc]

theorem citeStep_false {acc a : RespAcc} {x : PyVal}
    (h : citeStep acc x = (false, a)) :
    a.text = acc.text ++ sjoin (([] : List String).map clean_text) ∧
    a.sql = lastD ([] : List PyVal) acc.sql ∧
    a.citations = acc.citations ++ [citeOf x] := by
  unfold citeStep at h
  split at h
  · simp at h
  · next sid hsid =>
    split at h
    · simp at h
    · next did hdid =>
      injection h with h1 h2
      subst h2
      simp [citeOf, hsid, hdid, sjoin, lastD]

theorem listFlat_nils {β : Type} (l : List β) :
    listFlat (l.map fun _ => ([] : List α)) = [] := by
  induction l with
  | nil => rfl
  | cons x xs ih =>
    simp only [List.map_cons, listFlat_cons, List.nil_append]
    exact ih

theorem listFlat_singletons {β : Type} (g : β → α) (l : List β) :
    listFlat (l.map fun x => [g x]) = l.map g := by
  induction l with
  | nil => rfl
  | cons x xs ih => simp [listFlat, ih]

theorem processResult_false {acc a : RespAcc} {r : PyVal}
    (h : processResult acc r = (false, a)) :
    a.text = acc.text ++ sjoin ((resultFrags r).map clean_text) ∧
    a.sql = lastD (resultSqls r) acc.sql ∧
    a.citations = acc.citations ++ resultCites r := by
  cases r with
  | str s => simp [processResult, pyGetD] at h
  | int n => simp [processResult, pyGetD] at h
  | bool b => simp [processResult, pyGetD] at h
  | null => simp [processResult, pyGetD] at h
  | list es => simp [processResult, pyGetD] at h
  | dict fs =>
    unfold processResult at h
    simp only [pyGetD] at h
    by_cases hj : isStrEq ((pyLookup fs "type").getD .null) "json" = true
    case neg =>
      rw [if_neg hj] at h
      injection h with h1 h2
      subst h2
      simp [resultFrags, resultSqls, resultCites, resultJson?, hj, sjoin, lastD]
    case pos =>
      rw [if_pos hj] at h
      cases hjd : (pyLookup fs "json").getD (.dict []) with
      | str s => rw [hjd] at h; simp [pyGetD] at h
      | int n => rw [hjd] at h; simp [pyGetD] at h
      | bool b => rw [hjd] at h; simp [pyGetD] at h
      | null => rw [hjd] at h; simp [pyGetD] at h
      | list es => rw [hjd] at h; simp [pyGetD] at h
      | dict js =>
        rw [hjd] at h
        simp only [pyGetD] at h
        cases hraw : (pyLookup js "text").getD (.str "") with
        | int n => rw [hraw] at h; simp at h
        | bool b => rw [hraw] at h; simp at h
        | null => rw [hraw] at h; simp at h
        | list es => rw [hraw] at h; simp at h
        | dict ds => rw [hraw] at h; simp at h
        | str s =>
          rw [hraw] at h
          dsimp only at h
          cases hse : iterElems ((pyLookup js "searchResults").getD (.list [])) with
          | none => rw [hse] at h; simp at h
          | some elems =>
            rw [hse] at h
            dsimp only at h
            cases hfold : foldA citeStep { acc with text := acc.text ++ clean_text s } elems with
            | mk b a2 =>
              rw [hfold] at h
              cases b with
              | true => simp at h
              | false =>
                injection h with h1 h2
                subst h2
                have cf := foldA_spec citeStep (fun _ => []) (fun _ => [])
                  (fun x => [citeOf x]) (fun acc x a hx => citeStep_false hx)
                  elems { acc with text := acc.text ++ clean_text s } a2 hfold
                obtain ⟨c1, c2, c3⟩ := cf
                rw [listFlat_nils] at c1 c2
                rw [listFlat_singletons] at c3
                refine ⟨?_, ?_, ?_⟩
                · simp only [resultFrags, resultJson?, hj, if_true, hjd, hraw]
                  rw [c1]
                  simp [sjoin, String.append_assoc]
                · simp only [resultSqls, resultJson?, hj, if_true, hjd]
                  simp [lastD]
                · simp only [resultCites, resultJson?, hj, if_true, hjd, hse]
                  rw [c3]
                  simp

theorem processContentItem_false {acc a : RespAcc} {item : PyVal}
    (h : processContentItem acc item = (false, a)) :
    a.text = acc.text ++ sjoin ((itemFrags item).map clean_text) ∧
    a.sql = lastD (itemSqls item) acc.sql ∧
    a.citations = acc.citations ++ itemCites item := by
  cases item with
  | str s => simp [processContentItem, pyGetD] at h
  | int n => simp [processContentItem, pyGetD] at h
  | bool b => simp [processContentItem, pyGetD] at h
  | null => simp [processContentItem, pyGetD] at h
  | list es => simp [processContentItem, pyGetD] at h
  | dict fs =>
    unfold processContentItem at h
    simp only [pyGetD] at h
    by_cases htr : isStrEq ((pyLookup fs "type").getD .null) "tool_results" = true
    case pos =>
      rw [if_pos htr] at h
      cases htrv : (pyLookup fs "tool_results").getD (.dict []) with
      | int n => rw [htrv] at h; simp at h
      | bool b => rw [htrv] at h; simp at h
      | null => rw [htrv] at h; simp at h
      | str s2 =>
        rw [htrv] at h
        dsimp only at h
        by_cases hcs : containsSub "content".data s2.data = true
        · rw [if_pos hcs] at h; simp at h
        · rw [if_neg hcs] at h
          injection h with h1 h2
          subst h2
          simp [itemFrags, itemSqls, itemCites, itemResults, htr, htrv, sjoin, lastD, listFlat]
      | list es =>
        rw [htrv] at h
        dsimp only at h
        by_cases hcs : es.any (fun v => isStrEq v "content") = true
        · rw [if_pos hcs] at h; simp at h
        · rw [if_neg hcs] at h
          injection h with h1 h2
          subst h2
          simp [itemFrags, itemSqls, itemCites, itemResults, htr, htrv, sjoin, lastD, listFlat]
      | dict trs =>
        rw [htrv] at h
        dsimp only at h
        cases hc : pyLookup trs "content" with
        | none =>
          rw [hc] at h
          dsimp only at h
          injection h with h1 h2
          subst h2
          simp [itemFrags, itemSqls, itemCites, itemResults, htr, htrv, hc, sjoin, lastD, listFlat]
        | some inner =>
          rw [hc] at h
          dsimp only at h
          cases hie : iterElems inner with
          | none => rw [hie] at h; simp at h
          | some results =>
            rw [hie] at h
            dsimp only at h
            obtain ⟨r1, r2, r3⟩ := foldA_spec processResult resultFrags resultSqls resultCites
              (fun acc x a hx => processResult_false hx) results acc a h
            refine ⟨?_, ?_, ?_⟩ <;>
              simp [itemFrags, itemSqls, itemCites, itemResults, htr, htrv, hc, hie, r1, r2, r3]
    case neg =>
      rw [if_neg htr] at h
      by_cases htx : isStrEq ((pyLookup fs "type").getD .null) "text" = true
      · rw [if_pos htx] at h
        cases hraw : (pyLookup fs "text").getD (.str "") with
        | int n => rw [hraw] at h; simp at h
        | bool b => rw [hraw] at h; simp at h
        | null => rw [hraw] at h; simp at h
        | list es => rw [hraw] at h; simp at h
        | dict ds => rw [hraw] at h; simp at h
        | str s =>
          rw [hraw] at h
          dsimp only at h
          injection h with h1 h2
          subst h2
          simp [itemFrags, itemSqls, itemCites, itemResults, htr, htx, hraw, sjoin, lastD,
            listFlat, String.append_empty]
      · rw [if_neg htx] at h
        injection h with h1 h2
        subst h2
        simp [itemFrags, itemSqls, itemCites, itemResults, htr, htx, sjoin, lastD, listFlat]

theorem processEvent_false {acc a : RespAcc} {e : SSEEvent}
    (h : processEvent acc e = (false, a)) :
    a.text = acc.text ++ sjoin ((eventFrags e).map clean_text) ∧
    a.sql = lastD (eventSqls e) acc.sql ∧
    a.citations = acc.citations ++ eventCites e := by
  unfold processEvent at h
  by_cases hev : e.event = some "message.delta"
  case neg =>
    rw [if_neg hev] at h
    injection h with h1 h2
    subst h2
    simp [eventFrags, eventSqls, eventCites, eventItems, hev, sjoin, lastD, listFlat]
  case pos =>
    rw [if_pos hev] at h
    dsimp only at h
    cases hdata : e.data.getD (.dict []) with
    | str s => rw [hdata] at h; simp [pyGetD] at h
    | int n => rw [hdata] at h; simp [pyGetD] at h
    | bool b => rw [hdata] at h; simp [pyGetD] at h
    | null => rw [hdata] at h; simp [pyGetD] at h
    | list es => rw [hdata] at h; simp [pyGetD] at h
    | dict fs =>
      rw [hdata] at h
      simp only [pyGetD] at h
      cases hdelta : (pyLookup fs "delta").getD (.dict []) with
      | str s => rw [hdelta] at h; simp [pyGetD] at h
      | int n => rw [hdelta] at h; simp [pyGetD] at h
      | bool b => rw [hdelta] at h; simp [pyGetD] at h
      | null => rw [hdelta] at h; simp [pyGetD] at h
      | list es => rw [hdelta] at h; simp [pyGetD] at h
      | dict ds =>
        rw [hdelta] at h
        simp only [pyGetD] at h
        cases hie : iterElems ((pyLookup ds "content").getD (.list [])) with
        | none => rw [hie] at h; simp at h
        | some items =>
          rw [hie] at h
          dsimp only at h
          obtain ⟨r1, r2, r3⟩ := foldA_spec processContentItem itemFrags itemSqls itemCites
            (fun acc x a hx => processContentItem_false hx) items acc a h
          refine ⟨?_, ?_, ?_⟩ <;>
            simp [eventFrags, eventSqls, eventCites, eventItems, hev, hdata, hdelta, hie,
              r1, r2, r3]


theorem isStrEq_ne {v : PyVal} {s t : String} (h : isStrEq v s = true) (hne : s ≠ t) :
    isStrEq v t = false := by
  cases v with
  | str sv =>
    simp only [isStrEq, beq_iff_eq] at h
    subst h
    simp [isStrEq, hne]
  | int n => rfl
  | bool b => rfl
  | null => rfl
  | list es => rfl
  | dict fs => rfl

theorem processResultChoice_false {acc a : RespAcc} {r : PyVal}
    (h : processResultChoice acc r = (false, a)) :
    a.text = acc.text ++ sjoin ((resultFrags r).map clean_text) ∧
    a.sql = lastD (resultSqls r) acc.sql ∧
    a.citations = acc.citations ++ resultCites r := by
  cases r with
  | str s => simp [processResultChoice, pyGetD] at h
  | int n => simp [processResultChoice, pyGetD] at h
  | bool b => simp [processResultChoice, pyGetD] at h
  | null => simp [processResultChoice, pyGetD] at h
  | list es => simp [processResultChoice, pyGetD] at h
  | dict fs =>
    unfold processResultChoice at h
    simp only [pyGetD] at h
    by_cases hj : isStrEq ((pyLookup fs "type").getD .null) "json" = true
    case neg =>
      rw [if_neg hj] at h
      injection h with h1 h2
      subst h2
      simp [resultFrags, resultSqls, resultCites, resultJson?, hj, sjoin, lastD]
    case pos =>
      rw [if_pos hj] at h
      cases hjd : (pyLookup fs "json").getD (.dict []) with
      | str s => rw [hjd] at h; simp [pyGetD] at h
      | int n => rw [hjd] at h; simp [pyGetD] at h
      | bool b => rw [hjd] at h; simp [pyGetD] at h
      | null => rw [hjd] at h; simp [pyGetD] at h
      | list es => rw [hjd] at h; simp [pyGetD] at h
      | dict js =>
        rw [hjd] at h
        simp only [pyGetD] at h
        cases hraw : (pyLookup js "text").getD (.str "") with
        | int n => rw [hraw] at h; simp at h
        | bool b => rw [hraw] at h; simp at h
        | null => rw [hraw] at h; simp at h
        | list es => rw [hraw] at h; simp at h
        | dict ds => rw [hraw] at h; simp at h
        | str s =>
          rw [hraw] at h
          dsimp only at h
          cases hse : iterElems ((pyLookup js "searchResults").getD (.list [])) with
          | none => rw [hse] at h; simp at h
          | some elems =>
            rw [hse] at h
            dsimp only at h
            cases hfold : foldA citeStep { acc with text := acc.text ++ clean_text s, sql := (pyLookup js "sql").getD (.str "") } elems with
            | mk b a2 =>
              rw [hfold] at h
              cases b with
              | true => simp at h
              | false =>
                injection h with h1 h2
                subst h2
                obtain ⟨c1, c2, c3⟩ := foldA_spec citeStep (fun _ => []) (fun _ => [])
                  (fun x => [citeOf x]) (fun acc x a hx => citeStep_false hx)
                  elems { acc with text := acc.text ++ clean_text s, sql := (pyLookup js "sql").getD (.str "") } a2 hfold
                rw [listFlat_nils] at c1 c2
                rw [listFlat_singletons] at c3
                refine ⟨?_, ?_, ?_⟩
                · simp only [resultFrags, resultJson?, hj, if_true, hjd, hraw]
                  rw [c1]
                  simp [sjoin, String.append_assoc]
                · simp only [resultSqls, resultJson?, hj, if_true, hjd]
                  rw [c2]
                  simp [lastD]
                · simp only [resultCites, resultJson?, hj, if_true, hjd, hse]
                  rw [c3]
                  simp

theorem processItemChoice_false {acc a : RespAcc} {item : PyVal}
    (h : processItemChoice acc item = (false, a)) :
    a.text = acc.text ++ sjoin ((itemFrags item).map clean_text) ∧
    a.sql = lastD (itemSqls item) acc.sql ∧
    a.citations = acc.citations ++ itemCites item := by
  cases item with
  | str s => simp [processItemChoice, pyGetD] at h
  | int n => simp [processItemChoice, pyGetD] at h
  | bool b => simp [processItemChoice, pyGetD] at h
  | null => simp [processItemChoice, pyGetD] at h
  | list es => simp [processItemChoice, pyGetD] at h
  | dict fs =>
    unfold processItemChoice at h
    simp only [pyGetD] at h
    by_cases htx : isStrEq ((pyLookup fs "type").getD .null) "text" = true
    case pos =>
      rw [if_pos htx] at h
      have htr : isStrEq ((pyLookup fs "type").getD .null) "tool_results" = false :=
        isStrEq_ne htx (by decide)
      cases hraw : (pyLookup fs "text").getD (.str "") with
      | int n => rw [hraw] at h; simp at h
      | bool b => rw [hraw] at h; simp at h
      | null => rw [hraw] at h; simp at h
      | list es => rw [hraw] at h; simp at h
      | dict ds => rw [hraw] at h; simp at h
      | str s =>
        rw [hraw] at h
        dsimp only at h
        injection h with h1 h2
        subst h2
        simp [itemFrags, itemSqls, itemCites, itemResults, htr, htx, hraw, sjoin, lastD,
          listFlat, String.append_empty]
    case neg =>
      rw [if_neg htx] at h
      by_cases htr : isStrEq ((pyLookup fs "type").getD .null) "tool_results" = true
      case pos =>
        rw [if_pos htr] at h
        cases htrv : (pyLookup fs "tool_results").getD (.dict []) with
        | int n => rw [htrv] at h; simp at h
        | bool b => rw [htrv] at h; simp at h
        | null => rw [htrv] at h; simp at h
        | str s2 =>
          rw [htrv] at h
          dsimp only at h
          by_cases hcs : containsSub "content".data s2.data = true
          · rw [if_pos hcs] at h; simp at h
          · rw [if_neg hcs] at h
            injection h with h1 h2
            subst h2
            simp [itemFrags, itemSqls, itemCites, itemResults, htr, htx, htrv, sjoin, lastD, listFlat]
        | list es =>
          rw [htrv] at h
          dsimp only at h
          by_cases hcs : es.any (fun v => isStrEq v "content") = true
          · rw [if_pos hcs] at h; simp at h
          · rw [if_neg hcs] at h
            injection h with h1 h2
            subst h2
            simp [itemFrags, itemSqls, itemCites, itemResults, htr, htx, htrv, sjoin, lastD, listFlat]
        | dict trs =>
          rw [htrv] at h
          dsimp only at h
          cases hc : pyLookup trs "content" with
          | none =>
            rw [hc] at h
            dsimp only at h
            injection h with h1 h2
            subst h2
            simp [itemFrags, itemSqls, itemCites, itemResults, htr, htx, htrv, hc, sjoin,
              lastD, listFlat]
          | some inner =>
            rw [hc] at h
            dsimp only at h
            cases hie : iterElems inner with
            | none => rw [hie] at h; simp at h
            | some results =>
              rw [hie] at h
              dsimp only at h
              obtain ⟨r1, r2, r3⟩ := foldA_spec processResultChoice resultFrags resultSqls
                resultCites (fun acc x a hx => processResultChoice_false hx) results acc a h
              refine ⟨?_, ?_, ?_⟩ <;>
                simp [itemFrags, itemSqls, itemCites, itemResults, htr, htx, htrv, hc, hie,
                  r1, r2, r3]
      case neg =>
        rw [if_neg htr] at h
        injection h with h1 h2
        subst h2
        simp [itemFrags, itemSqls, itemCites, itemResults, htr, htx, sjoin, lastD, listFlat]

theorem processChoice_false {acc a : RespAcc} {choice : PyVal}
    (h : processChoice acc choice = (false, a)) :
    a.text = acc.text ++ sjoin ((choiceFrags choice).map clean_text) ∧
    a.sql = lastD (choiceSqls choice) acc.sql ∧
    a.citations = acc.citations ++ choiceCites choice := by
  cases choice with
  | str s => simp [processChoice, pyGetD] at h
  | int n => simp [processChoice, pyGetD] at h
  | bool b => simp [processChoice, pyGetD] at h
  | null => simp [processChoice, pyGetD] at h
  | list es => simp [processChoice, pyGetD] at h
  | dict cf =>
    unfold processChoice at h
    simp only [pyGetD] at h
    cases hmv : (pyLookup cf "message").getD (.dict []) with
    | str s => rw [hmv] at h; simp [pyGetD] at h
    | int n => rw [hmv] at h; simp [pyGetD] at h
    | bool b => rw [hmv] at h; simp [pyGetD] at h
    | null => rw [hmv] at h; simp [pyGetD] at h
    | list es => rw [hmv] at h; simp [pyGetD] at h
    | dict mf =>
      rw [hmv] at h
      simp only [pyGetD] at h
      cases hie : iterElems ((pyLookup mf "content").getD (.list [])) with
      | none => rw [hie] at h; simp at h
      | some items =>
        rw [hie] at h
        dsimp only at h
        obtain ⟨r1, r2, r3⟩ := foldA_spec processItemChoice itemFrags itemSqls itemCites
          (fun acc x a hx => processItemChoice_false hx) items acc a h
        refine ⟨?_, ?_, ?_⟩ <;>
          simp [choiceFrags, choiceSqls, choiceCites, choiceItems, hmv, hie, r1, r2, r3]

theorem processItemMsg_false {acc a : RespAcc} {item : PyVal}
    (h : processItemMsg acc item = (false, a)) :
    a.text = acc.text ++ sjoin ((msgItemFrags item).map clean_text) ∧
    a.sql = lastD ([] : List PyVal) acc.sql ∧
    a.citations = acc.citations ++ ([] : List Citation) := by
  cases item with
  | str s => simp [processItemMsg, pyGetD] at h
  | int n => simp [processItemMsg, pyGetD] at h
  | bool b => simp [processItemMsg, pyGetD] at h
  | null => simp [processItemMsg, pyGetD] at h
  | list es => simp [processItemMsg, pyGetD] at h
  | dict fs =>
    unfold processItemMsg at h
    simp only [pyGetD] at h
    by_cases htx : isStrEq ((pyLookup fs "type").getD .null) "text" = true
    case pos =>
      rw [if_pos htx] at h
      cases hraw : (pyLookup fs "text").getD (.str "") with
      | int n => rw [hraw] at h; simp at h
      | bool b => rw [hraw] at h; simp at h
      | null => rw [hraw] at h; simp at h
      | list es => rw [hraw] at h; simp at h
      | dict ds => rw [hraw] at h; simp at h
      | str s =>
        rw [hraw] at h
        dsimp only at h
        injection h with h1 h2
        subst h2
        simp [msgItemFrags, htx, hraw, sjoin, lastD, String.append_empty]
    case neg =>
      rw [if_neg htx] at h
      injection h with h1 h2
      subst h2
      simp [msgItemFrags, htx, sjoin, lastD]

theorem dict_run_sql (fields : List (String × PyVal))
    (h : dictInterpAborts fields = false) :
    (process_sse_dict fields).sql = lastD (dictSqls fields) (PyVal.str "") := by
  have hsql : (process_sse_dict fields).sql = (processDictCore fields).2.sql := rfl
  rw [hsql]
  unfold dictInterpAborts at h
  unfold dictSqls
  unfold processDictCore at h ⊢
  cases hc : pyLookup fields "choices" with
  | some choicesVal =>
    rw [hc] at h
    dsimp only at h ⊢
    cases hie : iterElems choicesVal with
    | none => rw [hie] at h; simp at h
    | some choices =>
      rw [hie] at h
      dsimp only at h ⊢
      simp only [Option.getD_some]
      cases hr : foldA processChoice initAcc choices with
      | mk b acc =>
        rw [hr] at h
        have hb : b = false := h
        subst hb
        obtain ⟨r1, r2, r3⟩ := foldA_spec processChoice choiceFrags choiceSqls choiceCites
          (fun acc x a hx => processChoice_false hx) choices initAcc acc hr
        simpa [initAcc] using r2
  | none =>
    rw [hc] at h
    dsimp only at h ⊢
    cases hm : pyLookup fields "message" with
    | none => simp [initAcc, lastD]
    | some msgVal =>
      rw [hm] at h
      dsimp only at h ⊢
      cases hg : pyGetD msgVal "content" (.list []) with
      | none => rw [hg] at h; simp at h
      | some content =>
        rw [hg] at h
        dsimp only at h ⊢
        cases hie : iterElems content with
        | none => rw [hie] at h; simp at h
        | some items =>
          rw [hie] at h
          dsimp only at h ⊢
          cases hr : foldA processItemMsg initAcc items with
          | mk b acc =>
            rw [hr] at h
            have hb : b = false := h
            subst hb
            obtain ⟨r1, r2, r3⟩ := foldA_spec processItemMsg msgItemFrags (fun _ => [])
              (fun _ => []) (fun acc x a hx => processItemMsg_false hx) items initAcc acc hr
            rw [listFlat_nils] at r2
            simpa [initAcc, lastD] using r2

/-- On a run in which the walk does not raise, the interpreter
accumulates exactly: the per-fragment-cleaned text fragments concatenated
in encounter order and cleaned once more at the end; the last value
written to `sql` (defaulting to the empty string); and the citations in
encounter order. -/
theorem interp_run_spec (events : List SSEEvent)
    (h : interpAborts events = false) :
    (process_sse_events events).text
      = clean_text (sjoin ((eventsFrags events).map clean_text)) ∧
    (process_sse_events events).sql = lastD (eventsSqls events) (PyVal.str "") ∧
    (process_sse_events events).citations = eventsCites events := by
  unfold interpAborts at h
  unfold process_sse_events
  cases hr : foldA processEvent initAcc events with
  | mk b acc =>
    rw [hr] at h
    simp only at h
    subst h
    obtain ⟨r1, r2, r3⟩ := foldA_spec processEvent eventFrags eventSqls eventCites
      (fun acc x a hx => processEvent_false hx) events initAcc acc hr
    refine ⟨?_, ?_, ?_⟩
    · simp only [r1]
      rfl
    · simpa [eventsSqls, initAcc] using r2
    · simpa [eventsCites, initAcc] using r3

/-! C3 -/

/-- C3 (counterexample): on `ex3` the first tool result carries
`sql = "SELECT 1"` and the second carries no sql value, yet the decoded
query is the empty string — the later item erases the earlier non-empty
query, contradicting the claimed last-non-empty rule. -/
theorem sql_last_nonempty_counterexample :
    (process_sse_events ex3).sql = PyVal.str "" ∧
    eventsSqls ex3 = [PyVal.str "SELECT 1", PyVal.str ""] ∧
    lastNonEmptySql (eventsSqls ex3) = PyVal.str "SELECT 1" ∧
    (process_sse_events ex3).sql ≠ lastNonEmptySql (eventsSqls ex3) := by
  refine ⟨rfl, rfl, rfl, fun hcontra => ?_⟩
  rw [show (process_sse_events ex3).sql = PyVal.str "" from rfl,
    show lastNonEmptySql (eventsSqls ex3) = PyVal.str "SELECT 1" from rfl] at hcontra
  injection hcontra with hs
  exact absurd hs (by decide)

/-- C3 (amended): in both covered input shapes — the event-sequence
shape and the choice-list shape — the query field equals the `sql` value
carried by the last `json`-typed tool result processed, with the empty
string standing in when that item has no sql value: unconditional
last-write-wins (lines 377 and 404), so a later item without sql does
erase a previously observed non-empty query. -/
theorem sql_last_write_wins (events : List SSEEvent)
    (fields : List (String × PyVal))
    (h1 : interpAborts events = false) (h2 : dictInterpAborts fields = false) :
    (process_sse_events events).sql = lastD (eventsSqls events) (PyVal.str "") ∧
    (process_sse_dict fields).sql = lastD (dictSqls fields) (PyVal.str "") :=
  ⟨(interp_run_spec events h1).2.1, dict_run_sql fields h2⟩

/-- Witness for C3 on concrete well-formed inputs of both shapes. -/
theorem sql_last_write_wins_witness :
    interpAborts exW = false ∧ dictInterpAborts exWD = false ∧
    (process_sse_events exW).sql = lastD (eventsSqls exW) (PyVal.str "") ∧
    (process_sse_dict exWD).sql = lastD (dictSqls exWD) (PyVal.str "") := by
  have t := sql_last_write_wins exW exWD rfl rfl
  exact ⟨rfl, rfl, t.1, t.2⟩

/-! C4 -/

/-- C4 (counterexample): with the raw fragments `"a "` and `" b"` the
decoder yields `"ab"` (each fragment is stripped before concatenation),
while a single final normalization of the raw concatenation would yield
`"a b"` — so normalizing per fragment is observable and the claimed
equality with normalize-once fails. -/
theorem text_single_normalization_counterexample :
    (process_sse_events ex4).text = "ab" ∧
    clean_text (sjoin (eventsFrags ex4)) = "a b" ∧
    (process_sse_events ex4).text ≠ clean_text (sjoin (eventsFrags ex4)) :=
  ⟨by decide, by decide, by decide⟩

/-- C4 (amended): the decoded text equals the Text Normalizer applied to
the concatenation, in encounter order, of the per-fragment normalized
text fragments — each fragment is normalized when appended (lines 370,
381) and the accumulated text is normalized once more at the end
(line 425). -/
theorem text_normalized_twice (events : List SSEEvent)
    (h : interpAborts events = false) :
    (process_sse_events events).text
      = clean_text (sjoin ((eventsFrags events).map clean_text)) :=
  (interp_run_spec events h).1

/-- Witness for C4 on a concrete well-formed event list. -/
theorem text_normalized_twice_witness :
    interpAborts ex4 = false ∧
    (process_sse_events ex4).text
      = clean_text (sjoin ((eventsFrags ex4).map clean_text)) :=
  ⟨rfl, text_normalized_twice ex4 rfl⟩

/-! C6: leaderboard invariants -/

/-- Distinct case-folded agent names, pairwise. -/
def distinctNames (l : List Entry) : Prop :=
  l.Pairwise (fun a b => pyLower a.agent_name ≠ pyLower b.agent_name)

/-- The ranking relation of the leaderboard view: strictly higher score,
or equal score and no slower completion time. -/
def rankOrd (a b : Entry) : Prop :=
  b.score < a.score ∨ (a.score = b.score ∧ a.completion_time ≤ b.completion_time)

/-- The leaderboard invariant: one entry per identity, ranked, capped. -/
def boardInv (l : List Entry) : Prop :=
  distinctNames l ∧ l.Pairwise rankOrd ∧ l.length ≤ 10

theorem boardLE_total : ∀ a b : Entry, boardLE a b || boardLE b a := by
  intro a b
  simp only [boardLE, Bool.or_eq_true, decide_eq_true_eq]
  omega

theorem boardLE_trans : ∀ a b c : Entry, boardLE a b → boardLE b c → boardLE a c := by
  intro a b c hab hbc
  simp only [boardLE, decide_eq_true_eq] at *
  omega

/-- Sorting and truncating any identity-distinct list yields a valid
leaderboard view. -/
theorem sortTrunc_inv (l : List Entry) (hd : distinctNames l) : boardInv (sortTrunc l) := by
  refine ⟨?_, ?_, ?_⟩
  · have hperm := List.mergeSort_perm l boardLE
    have hms : distinctNames (l.mergeSort boardLE) :=
      (hperm.pairwise_iff (fun h => Ne.symm h)).mpr hd
    exact List.Pairwise.sublist (List.take_sublist 10 _) hms
  · have hs := List.sorted_mergeSort boardLE_trans boardLE_total l
    have hms : (l.mergeSort boardLE).Pairwise rankOrd :=
      hs.imp fun hab => of_decide_eq_true hab
    exact List.Pairwise.sublist (List.take_sublist 10 _) hms
  · simp [sortTrunc]

theorem mem_replaceFirst {α : Type} {p : α → Bool} {x : α} :
    ∀ {l : List α} {v : α}, v ∈ replaceFirst p x l → v = x ∨ v ∈ l := by
  intro l
  induction l with
  | nil => intro v hv; simp [replaceFirst] at hv
  | cons a as ih =>
    intro v hv
    unfold replaceFirst at hv
    by_cases hp : p a = true
    · rw [if_pos hp] at hv
      rcases List.mem_cons.mp hv with rfl | hv2
      · exact Or.inl rfl
      · exact Or.inr (List.mem_cons_of_mem a hv2)
    · rw [if_neg hp] at hv
      rcases List.mem_cons.mp hv with heq | hv2
      · exact Or.inr (heq ▸ List.mem_cons_self _ _)
      · rcases ih hv2 with h1 | h2
        · exact Or.inl h1
        · exact Or.inr (List.mem_cons_of_mem a h2)

theorem pairwise_replaceFirst {α : Type} (R : α → α → Prop) (p : α → Bool) (x : α)
    (h1 : ∀ u v, p u = true → R u v → R x v)
    (h2 : ∀ u, p u = false → R u x) :
    ∀ l : List α, l.Pairwise R → (replaceFirst p x l).Pairwise R := by
  intro l
  induction l with
  | nil => intro _; simp [replaceFirst]
  | cons a as ih =>
    intro hl
    obtain ⟨ha, htail⟩ := List.pairwise_cons.mp hl
    unfold replaceFirst
    cases hp : p a with
    | true =>
      rw [if_pos rfl]
      exact List.pairwise_cons.mpr ⟨fun v hv => h1 a v hp (ha v hv), htail⟩
    | false =>
      rw [if_neg (by simp)]
      refine List.pairwise_cons.mpr ⟨?_, ih htail⟩
      intro v hv
      rcases mem_replaceFirst hv with rfl | hvin
      · exact h2 a hp
      · exact ha v hvin

/-- The session-board update of save_to_leaderboard preserves the
leaderboard invariant, for every database status. -/
theorem save_preserves_inv (db : DbStatus) (b : List Entry) (name : String)
    (t c q : Nat) (h : boardInv b) :
    boardInv (save_to_leaderboard db b name t c q).1 := by
  obtain ⟨hd, ho, hl⟩ := h
  unfold save_to_leaderboard
  cases hf : b.find? (sameAgent name) with
  | none =>
    simp only
    apply sortTrunc_inv
    have hnone := List.find?_eq_none.mp hf
    refine List.pairwise_append.mpr ⟨hd, List.pairwise_singleton _ _, ?_⟩
    intro u hu v hv
    rw [List.mem_singleton.mp hv]
    have hpu : ¬ sameAgent name u = true := hnone u hu
    have : (pyLower u.agent_name == pyLower name) = false := by
      simpa [sameAgent] using hpu
    simpa [mkEntry] using beq_eq_false_iff_ne.mp this
  | some old =>
    simp only
    split
    · apply sortTrunc_inv
      apply pairwise_replaceFirst _ (sameAgent name) _ ?_ ?_ b hd
      · intro u v hu huv
        have hu2 : pyLower u.agent_name = pyLower name := by
          simpa [sameAgent] using (beq_iff_eq.mp (by simpa [sameAgent] using hu))
        simpa [mkEntry] using hu2 ▸ huv
      · intro u hu
        have : (pyLower u.agent_name == pyLower name) = false := by
          simpa [sameAgent] using hu
        simpa [mkEntry] using beq_eq_false_iff_ne.mp this
    · exact ⟨hd, ho, hl⟩

/-- Submissions as fed to save_to_leaderboard, each with the outcome of
its own durable write attempt. -/
structure Submission where
  db : DbStatus
  agent_name : String
  completion_time : Nat
  correct_answers : Nat
  total_questions : Nat

def submitStep (b : List Entry) (s : Submission) : List Entry :=
  (save_to_leaderboard s.db b s.agent_name s.completion_time
    s.correct_answers s.total_questions).1

theorem foldl_submit_inv (subs : List Submission) :
    ∀ b : List Entry, boardInv b → boardInv (subs.foldl submitStep b) := by
  induction subs with
  | nil => intro b hb; exact hb
  | cons s rest ih =>
    intro b hb
    exact ih _ (save_preserves_inv s.db b s.agent_name s.completion_time
      s.correct_answers s.total_questions hb)

/-- C6: after any finite sequence of submissions starting from the empty
session leaderboard, the board has at most one entry per case-folded
agent name, at most 10 entries (so the first `n` entries are at most
`min n 10`), and every entry ranked above another has a strictly greater
score, or an equal score and a completion time that is no larger. -/
theorem leaderboard_invariants (subs : List Submission) (n : Nat) :
    distinctNames (subs.foldl submitStep []) ∧
    (subs.foldl submitStep []).Pairwise rankOrd ∧
    (subs.foldl submitStep []).length ≤ 10 ∧
    ((subs.foldl submitStep []).take n).length ≤ min n 10 := by
  have hinv : boardInv (subs.foldl submitStep []) :=
    foldl_submit_inv subs [] ⟨List.Pairwise.nil, List.Pairwise.nil, by simp⟩
  obtain ⟨hd, ho, hl⟩ := hinv
  refine ⟨hd, ho, hl, ?_⟩
  rw [List.length_take]
  omega
